import Mathlib

/-!
Verification development for the MCP_Video_recognition repository.

The definitions below are a shallow embedding of the repository's TypeScript
sources:

* `src/services/media-downloader.ts` (`MediaDownloaderService`): header
  strategy selection, the strategy retry loop, MIME allow-list checking,
  filename derivation and temp-file cleanup;
* `src/services/mongodb.ts` (`MongoDBService`): the media collection as a
  list of documents with point lookup, insert, and analysis sub-objects;
* `src/tools/image-recognition.ts` and `src/tools/video-recognition.ts`:
  the tool callbacks orchestrating cache check, download, class validation,
  analysis, persistence and cleanup.

External collaborators (axios, the node `fs`/`path`/`crypto` modules, the
WHATWG URL parser, the `mime-types` package, the Gemini backend and the
MongoDB driver) are modelled at their interface contracts: the parts of
their behaviour the repository code relies on are explicit definitions or
explicit environment parameters.  Machine-level effects (timeout durations,
actual hashing, timestamps, ObjectIds) are irrelevant to the claims and are
either abstracted into environment functions or omitted; the omissions are
noted at each definition.
-/

namespace MCP

/-- Payload bytes (a `Buffer` in the source). -/
abbrev Bytes := List Nat

/-- JavaScript errors as thrown by the services: a plain `Error` with a
message, an axios error carrying an HTTP response (status and statusText),
or an axios error without a response (network / transfer level, with an
error `code` such as `ECONNABORTED`). -/
inductive JsError where
  | plain (msg : String)
  | axiosHttp (status : Nat) (statusText : String)
  | axiosNet (code : String) (msg : String)
deriving DecidableEq

/-- The `message` property read off a thrown error by `catch` blocks. -/
def JsError.message : JsError → String
  | .plain m => m
  | .axiosHttp s st => "Request failed with status code " ++ toString s ++ " " ++ st
  | .axiosNet _ m => m

/-! ### File-system model

The scratch directory state is a finite map from paths to byte contents,
written as an association list.  `fsWrite` models `fs.writeFileSync`
(overwrite), `fsErase` models `fs.unlinkSync`, `fsHas` models
`fs.existsSync`. -/

/-- File-system state: paths currently on disk with their contents. -/
abbrev FS := List (String × Bytes)

/-- Look a path up in the file system. -/
def fsLookup : FS → String → Option Bytes
  | [], _ => none
  | (k, v) :: t, q => if k = q then some v else fsLookup t q

/-- `fs.existsSync`. -/
def fsHas (fs : FS) (q : String) : Bool :=
  (fsLookup fs q).isSome

/-- Remove a path (the effect of a successful `fs.unlinkSync`). -/
def fsErase (fs : FS) (q : String) : FS :=
  fs.filter (fun kv => kv.1 ≠ q)

/-- `fs.writeFileSync`: overwrite the path with the given bytes. -/
def fsWrite (fs : FS) (q : String) (v : Bytes) : FS :=
  (q, v) :: fsErase fs q

/-! ### String helpers shared by the embedded services -/

/-- JS `String.prototype.includes` (substring test), used by
`getStrategiesForUrl` for hostname pattern matching. -/
def strContainsSub (s sub : String) : Bool :=
  (List.range (s.toList.length + 1)).any
    (fun i => ((s.toList.drop i).take sub.toList.length) == sub.toList)

/-- JS `str.substring(0, n)`. -/
def strTake (s : String) (n : Nat) : String :=
  String.mk (s.toList.take n)

/-- JS `str.substring(n)` / string drop. -/
def strDrop (s : String) (n : Nat) : String :=
  String.mk (s.toList.drop n)

/-- `str.startsWith(pre)`. -/
def strStarts (s pre : String) : Bool :=
  s.toList.take pre.toList.length == pre.toList

/-- Does the string contain the character? (JS `str.includes(c)`.) -/
def strContainsChar (s : String) (c : Char) : Bool :=
  s.toList.any (fun x => x = c)

/-- `str.toLowerCase()` (character-wise). -/
def strToLower (s : String) : String :=
  String.mk (s.toList.map Char.toLower)

/-- `str.trim()`: strip leading and trailing whitespace. -/
def trimChars (cs : List Char) : List Char :=
  ((cs.dropWhile Char.isWhitespace).reverse.dropWhile Char.isWhitespace).reverse

/-- Split a character list on a separator character (JS `str.split(sep)`;
always at least one segment). -/
def splitOnChar (sep : Char) : List Char → List (List Char)
  | [] => [[]]
  | c :: cs =>
    let r := splitOnChar sep cs
    if c = sep then [] :: r
    else
      match r with
      | [] => [[c]]
      | h :: t => (c :: h) :: t

/-- Join segments with `/` between them. -/
def joinSlash : List (List Char) → List Char
  | [] => []
  | [x] => x
  | x :: y :: t => x ++ ('/' :: joinSlash (y :: t))

/-- JS `str.replace(pat, rep)`: replace the first occurrence only. -/
def replaceFirst : List Char → List Char → List Char → List Char
  | [], _, _ => []
  | c :: t, pat, rep =>
    if (c :: t).take pat.length == pat then rep ++ (c :: t).drop pat.length
    else c :: replaceFirst t pat rep

/-- String wrapper for `replaceFirst`. -/
def strReplaceFirst (s pat rep : String) : String :=
  String.mk (replaceFirst s.toList pat.toList rep.toList)

/-- JS `a || b` on an optional string field: the default is used when the
field is absent or the empty string (JS falsiness). -/
def jsOrStr : Option String → String → String
  | some s, d => if s = "" then d else s
  | none, d => d

/-- One lowercase hexadecimal digit. -/
def isHexChar (c : Char) : Bool :=
  c.isDigit || ('a' ≤ c && c ≤ 'f')

/-! ### MediaDownloaderService: the supported-MIME allow-list

From the `supportedMimeTypes` set built in the constructor of
`MediaDownloaderService` (src lines 38-53): six image types and six video
types, and no audio type. -/

/-- The fixed allow-list (insertion order of the source `Set`). -/
def supportedMimeTypes : List String :=
  [ "image/jpeg", "image/jpg", "image/png", "image/gif", "image/webp", "image/bmp"
  , "video/mp4", "video/mpeg", "video/quicktime", "video/x-msvideo", "video/webm", "video/ogg" ]

/-- The normalisation applied by `isSupported`:
`mimeType.split(';')[0].trim().toLowerCase()`. -/
def normalizeMime (m : String) : String :=
  String.mk ((trimChars (m.toList.takeWhile (fun c => c ≠ ';'))).map Char.toLower)

/-- `MediaDownloaderService.isSupported`.  JS `if (!mimeType) return false`
is the empty-string guard. -/
def isSupported (m : String) : Bool :=
  if m = "" then false
  else supportedMimeTypes.contains (normalizeMime m)

/-! ### mime-types and the URL parser (external contracts)

`mimeExtension` is the `mime.extension` lookup of the `mime-types` package,
restricted to the types this system can actually feed it (the allow-list
plus the octet-stream fallback); types absent from the mime-db table give
`none` and the caller falls back to `"bin"`.  Note mime-db has no
`image/jpg` entry. -/

/-- `mime.extension`, the relevant fragment of the mime-db table. -/
def mimeExtension (t : String) : Option String :=
  let b := normalizeMime t
  if b = "image/jpeg" then some "jpeg"
  else if b = "image/png" then some "png"
  else if b = "image/gif" then some "gif"
  else if b = "image/webp" then some "webp"
  else if b = "image/bmp" then some "bmp"
  else if b = "video/mp4" then some "mp4"
  else if b = "video/mpeg" then some "mpeg"
  else if b = "video/quicktime" then some "mov"
  else if b = "video/x-msvideo" then some "avi"
  else if b = "video/webm" then some "webm"
  else if b = "video/ogg" then some "ogv"
  else if b = "application/octet-stream" then some "bin"
  else none

/-- Contract of `new URL(url).pathname` for http/https URLs: strip the
scheme, fragment and query, require a non-empty host, and return the path
part (defaulting to `/`).  URLs without an http(s) scheme or host fail to
parse, matching the `catch` branch of `generateFilename`. -/
def parseUrlPathname (url : String) : Option String :=
  let afterScheme : Option (List Char) :=
    if strStarts url "http://" then some (url.toList.drop 7)
    else if strStarts url "https://" then some (url.toList.drop 8)
    else none
  match afterScheme with
  | none => none
  | some rest =>
    let rest := rest.takeWhile (fun c => c ≠ '#')
    let rest := rest.takeWhile (fun c => c ≠ '?')
    match splitOnChar '/' rest with
    | [] => none
    | host :: segs =>
      if host = [] then none
      else if segs = [] then some "/"
      else some (String.mk ('/' :: joinSlash segs))

/-- Node `path.basename` (posix): ignore trailing separators, then take the
component after the last separator. -/
def pathBasename (p : String) : String :=
  let cs := p.toList.reverse.dropWhile (fun c => c = '/')
  String.mk ((cs.takeWhile (fun c => c ≠ '/')).reverse)

/-- Node `path.extname`: the suffix of the basename from its last `.`
(inclusive); the empty string when there is no `.` or when the only `.` is
the leading character of the basename. -/
def pathExtname (p : String) : String :=
  let b := (pathBasename p).toList
  let afterDotRev := b.reverse.takeWhile (fun c => c ≠ '.')
  if afterDotRev.length = b.length then ""
  else
    let dotPos := b.length - 1 - afterDotRev.length
    if dotPos = 0 then ""
    else String.mk ('.' :: afterDotRev.reverse)

/-! ### MediaDownloaderService: header strategies

Transcription of `getStrategiesForUrl` (src lines 81-153).  Header sets are
ordered lists of name/value pairs.  `isTwitterUrl` is computed in the
source but is never used (there is no Twitter branch); it is dead code and
left out. -/

/-- One HTTP request header set. -/
abbrev Headers := List (String × String)

/-- Facebook-specific strategy (first Facebook header set). -/
def facebookStrategy1 : Headers :=
  [ ("User-Agent", "Mozilla/5.0 (Windows NT 10.0; Win64; x64) AppleWebKit/537.36 (KHTML, like Gecko) Chrome/120.0.0.0 Safari/537.36")
  , ("Accept", "text/html,application/xhtml+xml,application/xml;q=0.9,image/webp,image/apng,*/*;q=0.8,application/signed-exchange;v=b3;q=0.7")
  , ("Accept-Language", "en-US,en;q=0.9")
  , ("Accept-Encoding", "gzip, deflate, br")
  , ("Referer", "https://www.facebook.com/")
  , ("Origin", "https://www.facebook.com")
  , ("DNT", "1")
  , ("Connection", "keep-alive")
  , ("Upgrade-Insecure-Requests", "1")
  , ("Sec-Fetch-Dest", "video")
  , ("Sec-Fetch-Mode", "no-cors")
  , ("Sec-Fetch-Site", "cross-site") ]

/-- Fallback Chrome strategy for Facebook URLs. -/
def facebookStrategy2 : Headers :=
  [ ("User-Agent", "Mozilla/5.0 (Windows NT 10.0; Win64; x64) AppleWebKit/537.36 (KHTML, like Gecko) Chrome/120.0.0.0 Safari/537.36")
  , ("Accept", "*/*")
  , ("Accept-Language", "en-US,en;q=0.9")
  , ("Referer", "https://www.facebook.com/") ]

/-- The single Instagram strategy. -/
def instagramStrategy : Headers :=
  [ ("User-Agent", "Mozilla/5.0 (Windows NT 10.0; Win64; x64) AppleWebKit/537.36 (KHTML, like Gecko) Chrome/120.0.0.0 Safari/537.36")
  , ("Accept", "*/*")
  , ("Accept-Language", "en-US,en;q=0.9")
  , ("Referer", "https://www.instagram.com/")
  , ("Origin", "https://www.instagram.com") ]

/-- Default strategy 1: Chrome-like headers. -/
def defaultStrategy1 : Headers :=
  [ ("User-Agent", "Mozilla/5.0 (Windows NT 10.0; Win64; x64) AppleWebKit/537.36 (KHTML, like Gecko) Chrome/120.0.0.0 Safari/537.36")
  , ("Accept", "text/html,application/xhtml+xml,application/xml;q=0.9,image/webp,image/apng,*/*;q=0.8")
  , ("Accept-Language", "en-US,en;q=0.9")
  , ("Accept-Encoding", "gzip, deflate, br")
  , ("DNT", "1")
  , ("Connection", "keep-alive")
  , ("Upgrade-Insecure-Requests", "1") ]

/-- Default strategy 2: Firefox-like headers. -/
def defaultStrategy2 : Headers :=
  [ ("User-Agent", "Mozilla/5.0 (Windows NT 10.0; Win64; x64; rv:109.0) Gecko/20100101 Firefox/121.0")
  , ("Accept", "text/html,application/xhtml+xml,application/xml;q=0.9,image/avif,image/webp,*/*;q=0.8")
  , ("Accept-Language", "en-US,en;q=0.5")
  , ("Accept-Encoding", "gzip, deflate, br")
  , ("DNT", "1")
  , ("Connection", "keep-alive")
  , ("Upgrade-Insecure-Requests", "1") ]

/-- Default strategy 3: simple bot-friendly headers. -/
def defaultStrategy3 : Headers :=
  [ ("User-Agent", "MCP-Video-Recognition/1.0 (+https://github.com/mario-andreschak/mcp_video_recognition)")
  , ("Accept", "*/*") ]

/-- `MediaDownloaderService.getStrategiesForUrl`: pure, deterministic header
strategy selection keyed on substrings of the URL. -/
def getStrategiesForUrl (url : String) : List Headers :=
  let isFacebookUrl := strContainsSub url "fbcdn.net" || strContainsSub url "facebook.com"
  let isInstagramUrl := strContainsSub url "cdninstagram.com" || strContainsSub url "instagram.com"
  if isFacebookUrl then [facebookStrategy1, facebookStrategy2]
  else if isInstagramUrl then [instagramStrategy]
  else [defaultStrategy1, defaultStrategy2, defaultStrategy3]

/-- The header set the loop passes to axios for strategy `i`. -/
def strategyHeaders (url : String) (i : Nat) : Headers :=
  (getStrategiesForUrl url).getD i []

/-! ### The network and the axios GET contract

The network is an oracle: for each strategy index and header set it yields
either a wire-level reply (status, statusText, content-type header, and the
body as a chunk stream) or a connection-level failure.  `axiosGet` is the
contract of `axios.get(url, { responseType, timeout, maxRedirects,
maxContentLength, headers })` over such a wire outcome: non-2xx replies
reject with an error carrying the response; the body is accumulated chunk
by chunk and the transfer is aborted as soon as the accumulated size would
exceed `maxContentLength`, rejecting with an error that names the limit and
carries no response.  Timeouts and redirect loops arrive as `down`
outcomes.  The `content-length` value probed by the HEAD request is parsed
in the source but never used afterwards, so it is not modelled. -/

/-- Wire-level outcome of one GET attempt. -/
inductive WireOutcome where
  | reply (status : Nat) (statusText : String) (contentType : Option String) (chunks : List Bytes)
  | down (code : String) (msg : String)
deriving DecidableEq

/-- Network oracle: HEAD probe result (the `content-type` header, `none`
when the probe failed or carried no header — both are collapsed by the
source's `catch` into "no information") and GET wire outcome, per strategy
index and header set. -/
structure NetEnv where
  head : Nat → Headers → Option String
  wire : Nat → Headers → WireOutcome

/-- Result of `axios.get` as observed by the caller. -/
inductive GetOutcome where
  | ok (contentType : Option String) (body : Bytes)
  | httpErr (status : Nat) (statusText : String)
  | netErr (code : String) (msg : String)
deriving DecidableEq

/-- axios body accumulation under `maxContentLength`: consume chunks in
order, aborting (with the bytes buffered so far) as soon as the next chunk
would push the total over the limit. -/
def recvBody (maxLen : Nat) : List Bytes → Bytes → Except Bytes Bytes
  | [], acc => .ok acc
  | c :: cs, acc =>
    if maxLen < acc.length + c.length then .error acc
    else recvBody maxLen cs (acc ++ c)

/-- The axios GET contract over a wire outcome. -/
def axiosGet (maxLen : Nat) : WireOutcome → GetOutcome
  | .down code msg => .netErr code msg
  | .reply status statusText ct chunks =>
    if 200 ≤ status ∧ status < 300 then
      match recvBody maxLen chunks [] with
      | .ok body => .ok ct body
      | .error _ =>
        .netErr "ERR_BAD_RESPONSE" ("maxContentLength size of " ++ toString maxLen ++ " exceeded")
    else .httpErr status statusText

/-! ### MediaDownloaderService: the retry loop -/

/-- Constructor state and ambient helpers of `MediaDownloaderService`:
the byte ceiling (`maxFileSize`, default 100MB), the scratch directory
path, and the contracts of `crypto.createHash('md5')...digest('hex')` and
`crypto.randomBytes(4).toString('hex')` (an arbitrary hex digest function
and the random suffix drawn for this call). -/
structure DlConfig where
  maxFileSize : Nat
  tempDir : String
  md5hex : String → String
  randomId : String

/-- The constructor default for `maxFileSize`: `100 * 1024 * 1024`. -/
def defaultMaxFileSize : Nat := 100 * 1024 * 1024

/-- `MediaDownloaderService.generateFilename`: prefer the URL path basename
when it carries a dot; otherwise `media_<md5(url) first 8 hex>.<ext>` with
the extension derived from the MIME type (`bin` fallback); if URL parsing
fails, `media_<random 8 hex>.<ext>`. -/
def generateFilename (cfg : DlConfig) (url mimeType : String) : String :=
  match parseUrlPathname url with
  | some pathname =>
    let basename := pathBasename pathname
    if basename ≠ "" ∧ strContainsChar basename '.' then basename
    else "media_" ++ strTake (cfg.md5hex url) 8 ++ "." ++ ((mimeExtension mimeType).getD "bin")
  | none => "media_" ++ cfg.randomId ++ "." ++ ((mimeExtension mimeType).getD "bin")

/-- `DownloadResult` of the downloader service. -/
structure DownloadResult where
  filepath : String
  filename : String
  mimeType : String
  fileData : Bytes
  fileSize : Nat
deriving DecidableEq

/-- Classification of one strategy attempt, mirroring the `catch` at the
bottom of the loop body: `soft` failures (axios errors with response status
403/401/429) continue with the next strategy, everything else thrown is
`hard` and aborts the loop. -/
inductive AttemptOut where
  | success (r : DownloadResult)
  | soft (e : JsError)
  | hard (e : JsError)
deriving DecidableEq

/-- One iteration of the loop body of `downloadWithRetry` for strategy `i`
with header set `hd` (HEAD probe, GET, content-type validation, size check,
filename derivation), classified per the `catch` branch.  The write of the
temp file on success is applied by the loop (`retryGo`). -/
def attemptStrategy (cfg : DlConfig) (env : NetEnv) (url : String) (i : Nat) (hd : Headers) :
    AttemptOut :=
  let headCT := env.head i hd
  match axiosGet cfg.maxFileSize (env.wire i hd) with
  | .httpErr s st =>
    if s = 403 ∨ s = 401 ∨ s = 429 then .soft (.axiosHttp s st) else .hard (.axiosHttp s st)
  | .netErr c m => .hard (.axiosNet c m)
  | .ok respCT body =>
    let contentType : Option String :=
      match headCT with
      | some ct => some ct
      | none => respCT
    let ctError : Option JsError :=
      match contentType with
      | some ct => if isSupported ct then none else some (.plain ("Unsupported media type: " ++ ct))
      | none => none
    match ctError with
    | some e => .hard e
    | none =>
      if cfg.maxFileSize < body.length then
        .hard (.plain ("File too large: " ++ toString body.length ++ " bytes (max: "
          ++ toString cfg.maxFileSize ++ " bytes)"))
      else
        let mt := contentType.getD "application/octet-stream"
        let filename := generateFilename cfg url mt
        .success
          { filepath := cfg.tempDir ++ "/" ++ filename
          , filename := filename
          , mimeType := mt
          , fileData := body
          , fileSize := body.length }

/-- Decidable equality for `Except`, needed to evaluate concrete runs. -/
instance {ε α : Type} [DecidableEq ε] [DecidableEq α] : DecidableEq (Except ε α) := fun x y =>
  match x, y with
  | .ok a, .ok b =>
    if h : a = b then isTrue (by rw [h]) else isFalse (by intro hh; injection hh; contradiction)
  | .error e, .error f =>
    if h : e = f then isTrue (by rw [h]) else isFalse (by intro hh; injection hh; contradiction)
  | .ok _, .error _ => isFalse (by intro hh; cases hh)
  | .error _, .ok _ => isFalse (by intro hh; cases hh)

/-- Output of the retry loop: the result (or thrown error), the resulting
scratch-directory state, and the list of strategy indices for which a GET
attempt was made, in order. -/
structure DlOut where
  res : Except JsError DownloadResult
  fs : FS
  attempts : List Nat
deriving DecidableEq

/-- A list paired with running indices starting at `n` (the loop counter of
`for (let i = 0; i < strategies.length; i++)`). -/
def withIdx {α : Type} : Nat → List α → List (Nat × α)
  | _, [] => []
  | n, a :: as => (n, a) :: withIdx (n + 1) as

/-- The retry loop of `downloadWithRetry` over the remaining
(index, header-set) pairs, carrying `lastError`.  A successful attempt
writes the temp file and returns; a soft failure records the error and
continues; a hard failure rethrows; exhaustion throws
`lastError || new Error('All download strategies failed')`. -/
def retryGo (cfg : DlConfig) (env : NetEnv) (url : String) (fs : FS) :
    List (Nat × Headers) → Option JsError → DlOut
  | [], lastErr => ⟨.error (lastErr.getD (.plain "All download strategies failed")), fs, []⟩
  | (i, hd) :: rest, _ =>
    match attemptStrategy cfg env url i hd with
    | .success r => ⟨.ok r, fsWrite fs r.filepath r.fileData, [i]⟩
    | .soft e =>
      let o := retryGo cfg env url fs rest (some e)
      ⟨o.res, o.fs, i :: o.attempts⟩
    | .hard e => ⟨.error e, fs, [i]⟩

/-- `MediaDownloaderService.downloadWithRetry`. -/
def downloadWithRetry (cfg : DlConfig) (env : NetEnv) (url : String) (fs : FS) : DlOut :=
  retryGo cfg env url fs (withIdx 0 (getStrategiesForUrl url)) none

/-- The error translation of the `catch` in `downloadMedia`: axios errors
with a response become "Download failed with status ...", `ECONNABORTED`
becomes "Download timeout", other axios errors become "Network error: ...",
and non-axios errors are rethrown unchanged. -/
def translateError : JsError → JsError
  | .axiosHttp s st => .plain ("Download failed with status " ++ toString s ++ ": " ++ st)
  | .axiosNet c m =>
    if c = "ECONNABORTED" then .plain "Download timeout" else .plain ("Network error: " ++ m)
  | .plain m => .plain m

/-- `MediaDownloaderService.downloadMedia`. -/
def downloadMedia (cfg : DlConfig) (env : NetEnv) (url : String) (fs : FS) : DlOut :=
  let o := downloadWithRetry cfg env url fs
  match o.res with
  | .ok r => ⟨.ok r, o.fs, o.attempts⟩
  | .error e => ⟨.error (translateError e), o.fs, o.attempts⟩

/-! ### Temp-file cleanup -/

/-- `fs.unlinkSync` as a fallible operation: the `ok` flag says whether the
OS-level delete succeeds; on failure it throws. -/
def unlinkSync (fs : FS) (p : String) (ok : Bool) : Except JsError FS :=
  if ok then .ok (fsErase fs p) else .error (.plain ("EPERM: operation not permitted, unlink " ++ p))

/-- `MediaDownloaderService.cleanupTempFile`: delete if present; the entire
body is wrapped in try/catch, so a deletion failure is logged and the call
returns normally (a total function into `FS` — it never throws). -/
def cleanupTempFile (fs : FS) (p : String) (ok : Bool) : FS :=
  if fsHas fs p then
    match unlinkSync fs p ok with
    | .ok fs2 => fs2
    | .error _ => fs
  else fs

/-! ### MongoDBService: the media collection

A `MediaDocument` without its `_id`, `uploadedAt` and `analyzedAt` fields
(driver-assigned ObjectIds and wall-clock timestamps carry no information
the claims touch).  The collection is the list of documents in insertion
order; `findOne({ url })` returns the first match in that order. -/

/-- The `analysis` sub-object of a `MediaDocument`. -/
structure AnalysisDoc where
  prompt : String
  result : String
  model : String
deriving DecidableEq

/-- A stored `MediaDocument`. -/
structure MediaDoc where
  url : String
  filename : String
  mimeType : String
  fileData : Bytes
  fileSize : Nat
  analysis : Option AnalysisDoc
deriving DecidableEq

/-- `MongoDBService.findByUrl`: `findOne({ url })` — first document whose
`url` field equals the key, in insertion order. -/
def findByUrl (u : String) (db : List MediaDoc) : Option MediaDoc :=
  db.find? (fun d => d.url == u)

/-- The populated cached analysis for a URL, when the looked-up document
has one (the `existingMedia && existingMedia.analysis` test of the tools). -/
def cachedAnalysis (u : String) (db : List MediaDoc) : Option AnalysisDoc :=
  (findByUrl u db).bind (fun d => d.analysis)

/-- `MongoDBService.saveMedia`: `insertOne` of a freshly built document
(never deduplicating on `url`).  `ok` is whether the store write goes
through; a failed write throws (`MongoDB not connected` / driver error). -/
def saveMedia (ok : Bool) (db : List MediaDoc) (url filename mimeType : String)
    (fileData : Bytes) (analysis : Option AnalysisDoc) : Except JsError (List MediaDoc) :=
  if ok then
    .ok (db ++ [{ url := url, filename := filename, mimeType := mimeType
                , fileData := fileData, fileSize := fileData.length, analysis := analysis }])
  else .error (.plain "MongoServerError: media write failed")

/-! ### The tool callbacks (image-recognition.ts, video-recognition.ts) -/

/-- `GeminiService.processFile` result shape (`GeminiResponse`). -/
structure GeminiResponse where
  text : String
  isError : Bool
deriving DecidableEq

/-- The tool-call result, flattening the single-element `content` array of
`CallToolResult` to its text; `isError` is false when the field is absent. -/
structure ToolResult where
  text : String
  isError : Bool
deriving DecidableEq

/-- Inbound request arguments after schema parsing
(`BaseRecognitionParamsSchema`).  `prompt`/`modelname` optional strings
(the callbacks re-default them with `||`); `saveToDb` a boolean. -/
structure Args where
  filepath : Option String
  url : Option String
  prompt : Option String
  modelname : Option String
  saveToDb : Bool
deriving DecidableEq

/-- The environment of one tool callback invocation: the network oracle,
the local (pre-existing, read-only) files visible to the `filepath` branch,
the Gemini upload and process outcomes for this request, whether a store
write would succeed, and whether an OS-level unlink would succeed. -/
structure ToolEnv where
  net : NetEnv
  localFiles : FS
  upload : Except JsError Unit
  process : Except JsError GeminiResponse
  saveOk : Bool
  unlinkOk : Bool

/-- Output of one tool callback: the result returned to the MCP caller, the
scratch-directory state after the `finally` block, the store contents, and
the GET attempts made. -/
structure ToolOut where
  result : ToolResult
  fs : FS
  db : List MediaDoc
  attempts : List Nat
deriving DecidableEq

/-- The analyze-and-persist tail of the image tool callback (upload,
process, then an unconditional `saveMedia` whose failure is caught and
swallowed).  Returns the result of the `try` body plus the store state.
Note the image tool never consults `args.saveToDb` before saving. -/
def imageAnalyze (env : ToolEnv) (args : Args) (sourceKey filename mimeType : String)
    (fileData : Bytes) (db : List MediaDoc) : Except JsError ToolResult × List MediaDoc :=
  let prompt := jsOrStr args.prompt "Describe this image"
  let modelName := jsOrStr args.modelname "gemini-2.5-flash"
  match env.upload with
  | .error e => (.error e, db)
  | .ok _ =>
    match env.process with
    | .error e => (.error e, db)
    | .ok g =>
      if g.isError then (.ok ⟨g.text, true⟩, db)
      else
        match saveMedia env.saveOk db sourceKey filename mimeType fileData
            (some ⟨prompt, g.text, modelName⟩) with
        | .ok db2 => (.ok ⟨g.text, false⟩, db2)
        | .error _ => (.ok ⟨g.text, false⟩, db)

/-- Intermediate output of the `try` body of a tool callback: result or
thrown error, the `tempFilePath` marker, file system, store, attempts. -/
structure BodyOut where
  res : Except JsError ToolResult
  temp : Option String
  fs : FS
  db : List MediaDoc
  attempts : List Nat

/-- The `try` body of the image tool callback (src/tools part, lines
30-168): cache check, download via URL or local-file validation, class
check, analysis, persistence. -/
def imageBody (cfg : DlConfig) (env : ToolEnv) (args : Args) (fs : FS) (db : List MediaDoc) :
    BodyOut :=
  match args.url with
  | some u =>
    match cachedAnalysis u db with
    | some a => ⟨.ok ⟨a.result, false⟩, none, fs, db, []⟩
    | none =>
      let o := downloadMedia cfg env.net u fs
      match o.res with
      | .error e => ⟨.error e, none, o.fs, db, o.attempts⟩
      | .ok r =>
        if strStarts r.mimeType "image/" then
          let ad := imageAnalyze env args u r.filename r.mimeType r.fileData db
          ⟨ad.1, some r.filepath, o.fs, ad.2, o.attempts⟩
        else
          ⟨.error (.plain ("URL does not point to an image file. MIME type: " ++ r.mimeType))
          , some r.filepath, o.fs, db, o.attempts⟩
  | none =>
    match args.filepath with
    | none => ⟨.error (.plain "Either filepath or url must be provided"), none, fs, db, []⟩
    | some fp =>
      match fsLookup env.localFiles fp with
      | none => ⟨.error (.plain ("Image file not found: " ++ fp)), none, fs, db, []⟩
      | some fileData =>
        let ext := strToLower (pathExtname fp)
        if ext = ".jpg" ∨ ext = ".jpeg" ∨ ext = ".png" ∨ ext = ".webp" then
          let mimeType := "image/" ++ strReplaceFirst (strDrop ext 1) "jpg" "jpeg"
          let ad := imageAnalyze env args fp (pathBasename fp) mimeType fileData db
          ⟨ad.1, none, fs, ad.2, []⟩
        else
          ⟨.error (.plain ("Unsupported image format: " ++ ext
            ++ ". Supported formats are: .jpg, .jpeg, .png, .webp")), none, fs, db, []⟩

/-- The image tool callback: `try` body, then the `catch` mapping any
thrown error to an `isError` text result, then the `finally` releasing the
temp file if one was marked. -/
def imageTool (cfg : DlConfig) (env : ToolEnv) (args : Args) (fs : FS) (db : List MediaDoc) :
    ToolOut :=
  let b := imageBody cfg env args fs db
  let result : ToolResult :=
    match b.res with
    | .ok r => r
    | .error e => ⟨"Error processing image: " ++ e.message, true⟩
  let fsFinal : FS :=
    match b.temp with
    | some p => cleanupTempFile b.fs p env.unlinkOk
    | none => b.fs
  ⟨result, fsFinal, b.db, b.attempts⟩

/-- The analyze-and-persist tail of the video tool callback.  Unlike the
image tool, the save is gated on `args.saveToDb`; in the local-file branch
with `saveToDb` false the `fileData`/`filename`/`mimeType` variables are
never assigned (the save block that would read them is skipped). -/
def videoAnalyze (env : ToolEnv) (args : Args) (sourceKey : String)
    (filename mimeType : Option String) (fileData : Option Bytes) (db : List MediaDoc) :
    Except JsError ToolResult × List MediaDoc :=
  let prompt := jsOrStr args.prompt "Describe this video"
  let modelName := jsOrStr args.modelname "gemini-2.5-flash"
  match env.upload with
  | .error e => (.error e, db)
  | .ok _ =>
    match env.process with
    | .error e => (.error e, db)
    | .ok g =>
      if g.isError then (.ok ⟨g.text, true⟩, db)
      else if args.saveToDb then
        match saveMedia env.saveOk db sourceKey (filename.getD "") (mimeType.getD "")
            (fileData.getD []) (some ⟨prompt, g.text, modelName⟩) with
        | .ok db2 => (.ok ⟨g.text, false⟩, db2)
        | .error _ => (.ok ⟨g.text, false⟩, db)
      else (.ok ⟨g.text, false⟩, db)

/-- The `try` body of the video tool callback (src/tools part, lines
30-172). -/
def videoBody (cfg : DlConfig) (env : ToolEnv) (args : Args) (fs : FS) (db : List MediaDoc) :
    BodyOut :=
  match args.url with
  | some u =>
    match cachedAnalysis u db with
    | some a => ⟨.ok ⟨a.result, false⟩, none, fs, db, []⟩
    | none =>
      let o := downloadMedia cfg env.net u fs
      match o.res with
      | .error e => ⟨.error e, none, o.fs, db, o.attempts⟩
      | .ok r =>
        if strStarts r.mimeType "video/" then
          let ad := videoAnalyze env args u (some r.filename) (some r.mimeType) (some r.fileData) db
          ⟨ad.1, some r.filepath, o.fs, ad.2, o.attempts⟩
        else
          ⟨.error (.plain ("URL does not point to a video file. MIME type: " ++ r.mimeType))
          , some r.filepath, o.fs, db, o.attempts⟩
  | none =>
    match args.filepath with
    | none => ⟨.error (.plain "Either filepath or url must be provided"), none, fs, db, []⟩
    | some fp =>
      match fsLookup env.localFiles fp with
      | none => ⟨.error (.plain ("Video file not found: " ++ fp)), none, fs, db, []⟩
      | some fileData =>
        let ext := strToLower (pathExtname fp)
        if ext = ".mp4" ∨ ext = ".mpeg" ∨ ext = ".mov" ∨ ext = ".avi" ∨ ext = ".webm" then
          let rdata : Option Bytes := if args.saveToDb then some fileData else none
          let rname : Option String := if args.saveToDb then some (pathBasename fp) else none
          let rmime : Option String := if args.saveToDb then some ("video/" ++ strDrop ext 1) else none
          let ad := videoAnalyze env args fp rname rmime rdata db
          ⟨ad.1, none, fs, ad.2, []⟩
        else
          ⟨.error (.plain ("Unsupported video format: " ++ ext
            ++ ". Supported formats are: .mp4, .mpeg, .mov, .avi, .webm")), none, fs, db, []⟩

/-- The video tool callback: `try` body, `catch`, `finally`. -/
def videoTool (cfg : DlConfig) (env : ToolEnv) (args : Args) (fs : FS) (db : List MediaDoc) :
    ToolOut :=
  let b := videoBody cfg env args fs db
  let result : ToolResult :=
    match b.res with
    | .ok r => r
    | .error e => ⟨"Error processing video: " ++ e.message, true⟩
  let fsFinal : FS :=
    match b.temp with
    | some p => cleanupTempFile b.fs p env.unlinkOk
    | none => b.fs
  ⟨result, fsFinal, b.db, b.attempts⟩

/-- Is a strategy attempt a soft (retry-with-next-strategy) failure? -/
def isSoft : AttemptOut → Bool
  | .soft _ => true
  | _ => false

/-- The error carried by a soft failure. -/
def softErr : AttemptOut → JsError
  | .soft e => e
  | _ => .plain ""

/-- The last element of a list, with a default for the empty list. -/
def lastD {α : Type} : List α → α → α
  | [], d => d
  | [a], _ => a
  | _ :: b :: t, d => lastD (b :: t) d

/-- Indices `n, n+1, ..., n+len-1`. -/
def idxFrom (n : Nat) : Nat → List Nat
  | 0 => []
  | len + 1 => n :: idxFrom (n + 1) len

/-! ### Concrete test fixtures

Used to evaluate the theorems below on closed inputs.  `hexDummy` is a
stand-in hex digest function (the theorems about hashing are parametric in
the digest). -/

/-- A fixed 32-hex-character digest function. -/
def hexDummy : String → String := fun _ => "0123456789abcdef0123456789abcdef"

/-- Test downloader configuration (1000-byte ceiling). -/
def cfgT : DlConfig := ⟨1000, "/tmp/mcp-video-recognition", hexDummy, "cafebabe"⟩

/-- Like `cfgT` but with a different random suffix. -/
def cfgT2 : DlConfig := ⟨1000, "/tmp/mcp-video-recognition", hexDummy, "00000000"⟩

/-- Test downloader configuration with a 10-byte ceiling. -/
def cfgSmall : DlConfig := ⟨10, "/tmp/mcp-video-recognition", hexDummy, "cafebabe"⟩

/-- A test URL (not matching any platform pattern: three strategies). -/
def urlT : String := "https://example.com/a/pic.png"

/-- A test video URL. -/
def urlV : String := "https://example.com/a/clip.mp4"

/-- A network that refuses every connection. -/
def netNever : NetEnv := ⟨fun _ _ => none, fun _ _ => .down "ECONNREFUSED" "connection refused"⟩

/-- A network where every strategy succeeds with an image/png payload. -/
def netImg : NetEnv := ⟨fun _ _ => none, fun _ _ => .reply 200 "OK" (some "image/png") [[1, 2, 3]]⟩

/-- A network where every strategy succeeds with a video/mp4 payload. -/
def netVid : NetEnv := ⟨fun _ _ => none, fun _ _ => .reply 200 "OK" (some "video/mp4") [[1, 2, 3]]⟩

/-- A network where strategy 0 is rejected with 403 and the others succeed. -/
def netFallback : NetEnv :=
  ⟨fun _ _ => none,
   fun i _ => if i = 0 then .reply 403 "Forbidden" none [] else .reply 200 "OK" (some "image/png") [[1, 2, 3]]⟩

/-- A network that always answers 500. -/
def netServerErr : NetEnv := ⟨fun _ _ => none, fun _ _ => .reply 500 "Internal Server Error" none []⟩

/-- A network that rate-limits every strategy, with a statusText naming the
strategy index (so the reported last error is observable). -/
def netRateLimited : NetEnv :=
  ⟨fun _ _ => none, fun i _ => .reply 429 ("Too Many Requests " ++ toString i) none []⟩

/-- A network serving an oversize payload (12 bytes in two chunks). -/
def netBig : NetEnv :=
  ⟨fun _ _ => none, fun _ _ => .reply 200 "OK" (some "video/mp4") [[1, 2, 3, 4, 5, 6], [7, 8, 9, 10, 11, 12]]⟩

/-- A network whose replies carry no content-type header at all. -/
def netNoCT : NetEnv := ⟨fun _ _ => none, fun _ _ => .reply 200 "OK" none [[1, 2, 3]]⟩

/-- The download result of `netImg`/`netFallback` for `urlT`. -/
def rImg : DownloadResult := ⟨"/tmp/mcp-video-recognition/pic.png", "pic.png", "image/png", [1, 2, 3], 3⟩

/-- The download result of `netVid` for `urlV`. -/
def rVid : DownloadResult := ⟨"/tmp/mcp-video-recognition/clip.mp4", "clip.mp4", "video/mp4", [1, 2, 3], 3⟩

/-- A store state holding a completed analysis for `urlT`. -/
def dbCached : List MediaDoc :=
  [⟨"https://example.com/a/pic.png", "pic.png", "image/png", [7], 1,
    some ⟨"old prompt", "cached text", "gemini-2.0"⟩⟩]

/-- A benign tool environment over a dead network (cache-hit tests). -/
def envPlain : ToolEnv := ⟨netNever, [], .ok (), .ok ⟨"fresh", false⟩, true, true⟩

/-- Tool environment: working image download and analysis, working store. -/
def envImgOk : ToolEnv := ⟨netImg, [], .ok (), .ok ⟨"desc", false⟩, true, true⟩

/-- Tool environment: working image download and analysis, failing store. -/
def envImgSaveFail : ToolEnv := ⟨netImg, [], .ok (), .ok ⟨"analyzed text", false⟩, false, true⟩

/-- Tool environment: working video download and analysis, failing store. -/
def envVidSaveFail : ToolEnv := ⟨netVid, [], .ok (), .ok ⟨"analyzed text", false⟩, false, true⟩

/-- Tool environment for local-file image requests. -/
def envLocalImg : ToolEnv := ⟨netNever, [("/tmp/pic.png", [1, 2, 3])], .ok (), .ok ⟨"desc", false⟩, true, true⟩

/-- Tool environment for local-file video requests. -/
def envLocalVid : ToolEnv := ⟨netNever, [("/tmp/clip.mp4", [1, 2, 3])], .ok (), .ok ⟨"desc", false⟩, true, true⟩

/-- Tool environment over the content-type-less network. -/
def envNoCT : ToolEnv := ⟨netNoCT, [], .ok (), .ok ⟨"desc", false⟩, true, true⟩

/-- An image request by local path with `saveToDb := false`. -/
def argsLocalImgNoSave : Args := ⟨some "/tmp/pic.png", none, none, none, false⟩

/-- A video request by local path with `saveToDb := false`. -/
def argsLocalVidNoSave : Args := ⟨some "/tmp/clip.mp4", none, none, none, false⟩

/-! ### Helper lemmas: file-system model -/

theorem fsHas_fsWrite_self (fs : FS) (p : String) (v : Bytes) :
    fsHas (fsWrite fs p v) p = true := by
  simp [fsHas, fsWrite, fsLookup]

theorem fsErase_fsWrite (fs : FS) (p : String) (v : Bytes) :
    fsErase (fsWrite fs p v) p = fsErase fs p := by
  simp [fsWrite, fsErase, List.filter_filter]

theorem fsLookup_fsErase (fs : FS) (p q : String) :
    fsLookup (fsErase fs p) q = if q = p then none else fsLookup fs q := by
  induction fs with
  | nil =>
    simp only [fsErase, List.filter_nil, fsLookup]
    split <;> rfl
  | cons kv t ih =>
    simp only [fsErase, List.filter_cons] at ih ⊢
    by_cases hkp : kv.1 = p
    · rw [if_neg (by simp [hkp]), ih]
      by_cases hqp : q = p
      · simp [hqp]
      · simp only [hqp, if_false, fsLookup]
        rw [if_neg (fun he => hqp (he.symm.trans hkp))]
    · rw [if_pos (by simp [hkp])]
      simp only [fsLookup]
      by_cases hkq : kv.1 = q
      · have hqp : ¬ q = p := fun h => hkp (hkq.trans h)
        simp [hkq, hqp]
      · simp only [hkq, if_false]
        rw [ih]

theorem fsHas_of_fsHas_fsErase (fs : FS) (p q : String) :
    fsHas (fsErase fs p) q = true → fsHas fs q = true := by
  intro h
  rw [fsHas, fsLookup_fsErase] at h
  by_cases hqp : q = p
  · simp [hqp] at h
  · simpa [fsHas, hqp] using h

/-! ### Helper lemmas: the bounded body receive -/

theorem recvBody_complete (maxLen : Nat) :
    ∀ (chunks : List Bytes) (acc : Bytes),
      acc.length + (chunks.map List.length).sum ≤ maxLen →
      recvBody maxLen chunks acc = .ok (acc ++ chunks.flatten) := by
  intro chunks
  induction chunks with
  | nil => intro acc _; simp [recvBody]
  | cons c cs ih =>
    intro acc h
    simp only [List.map_cons, List.sum_cons] at h
    rw [recvBody, if_neg (by omega)]
    rw [ih (acc ++ c) (by simp [List.length_append]; omega)]
    simp [List.flatten]

theorem recvBody_abort (maxLen : Nat) :
    ∀ (chunks : List Bytes) (acc : Bytes),
      acc.length ≤ maxLen →
      maxLen < acc.length + (chunks.map List.length).sum →
      ∃ b, recvBody maxLen chunks acc = .error b ∧ b.length ≤ maxLen := by
  intro chunks
  induction chunks with
  | nil => intro acc hacc h; simp at h; omega
  | cons c cs ih =>
    intro acc hacc h
    simp only [List.map_cons, List.sum_cons] at h
    by_cases hc : maxLen < acc.length + c.length
    · exact ⟨acc, by rw [recvBody, if_pos hc], hacc⟩
    · rw [recvBody, if_neg hc]
      exact ih (acc ++ c) (by simp [List.length_append]; omega)
        (by simp [List.length_append]; omega)

/-! ### Helper lemmas: indexed lists -/

theorem getD_drop_cons {α : Type} :
    ∀ (l : List α) (n : Nat) (d : α), n < l.length →
      l.drop n = l.getD n d :: l.drop (n + 1) := by
  intro l
  induction l with
  | nil => intro n d h; simp at h
  | cons a t ih =>
    intro n d h
    cases n with
    | zero => simp [List.getD]
    | succ m =>
      simp only [List.drop, List.getD_cons_succ]
      exact ih m d (by simpa using h)

theorem mem_withIdx {α : Type} (d : α) :
    ∀ (l : List α) (n : Nat) (p : Nat × α), p ∈ withIdx n l →
      ∃ j, j < l.length ∧ p.1 = n + j ∧ p.2 = l.getD j d := by
  intro l
  induction l with
  | nil => intro n p h; simp [withIdx] at h
  | cons a t ih =>
    intro n p h
    simp only [withIdx, List.mem_cons] at h
    cases h with
    | inl h => exact ⟨0, by simp, by simp [h], by simp [h, List.getD]⟩
    | inr h =>
      obtain ⟨j, hj, h1, h2⟩ := ih (n + 1) p h
      exact ⟨j + 1, by simpa using hj, by omega, by simpa [List.getD_cons_succ] using h2⟩

theorem map_fst_withIdx {α : Type} :
    ∀ (l : List α) (n : Nat), (withIdx n l).map Prod.fst = idxFrom n l.length := by
  intro l
  induction l with
  | nil => intro n; simp [withIdx, idxFrom]
  | cons a t ih => intro n; simp [withIdx, idxFrom, ih]

theorem idxFrom_eq_map_range :
    ∀ (len n : Nat), idxFrom n len = (List.range len).map (fun j => n + j) := by
  intro len
  induction len with
  | zero => intro n; simp [idxFrom]
  | succ m ih =>
    intro n
    rw [idxFrom, ih (n + 1), List.range_succ_eq_map]
    simp only [List.map_cons, List.map_map, Nat.add_zero]
    congr 1
    apply List.map_congr_left
    intro j _
    simp only [Function.comp_apply]
    omega

theorem idxFrom_zero (len : Nat) : idxFrom 0 len = List.range len := by
  rw [idxFrom_eq_map_range]
  simp

theorem lastD_withIdx {α : Type} (d : α) :
    ∀ (l : List α) (n : Nat), l ≠ [] →
      lastD (withIdx n l) (0, d) = (n + (l.length - 1), l.getD (l.length - 1) d) := by
  intro l
  induction l with
  | nil => intro n h; exact absurd rfl h
  | cons a t ih =>
    intro n _
    cases t with
    | nil => simp [withIdx, lastD, List.getD]
    | cons b t2 =>
      have hstep : lastD (withIdx n (a :: b :: t2)) (0, d)
          = lastD (withIdx (n + 1) (b :: t2)) (0, d) := by
        simp only [withIdx, lastD]
      rw [hstep, ih (n + 1) (by simp)]
      simp only [List.length_cons, List.getD_cons_succ, Nat.add_sub_cancel, Prod.mk.injEq]
      exact ⟨by omega, trivial⟩

/-! ### Helper lemmas: the retry loop -/

theorem retryGo_fs_ok (cfg : DlConfig) (env : NetEnv) (url : String) (fs : FS) :
    ∀ (l : List (Nat × Headers)) (e0 : Option JsError) (r : DownloadResult),
      (retryGo cfg env url fs l e0).res = .ok r →
      (retryGo cfg env url fs l e0).fs = fsWrite fs r.filepath r.fileData := by
  intro l
  induction l with
  | nil => intro e0 r h; simp [retryGo] at h
  | cons p rest ih =>
    intro e0 r h
    obtain ⟨i, hd⟩ := p
    cases hA : attemptStrategy cfg env url i hd with
    | success r2 =>
      simp only [retryGo, hA] at h ⊢
      obtain rfl : r2 = r := by simpa using h
      rfl
    | soft e =>
      simp only [retryGo, hA] at h ⊢
      exact ih (some e) r h
    | hard e => simp [retryGo, hA] at h

theorem retryGo_fs_err (cfg : DlConfig) (env : NetEnv) (url : String) (fs : FS) :
    ∀ (l : List (Nat × Headers)) (e0 : Option JsError) (e : JsError),
      (retryGo cfg env url fs l e0).res = .error e →
      (retryGo cfg env url fs l e0).fs = fs := by
  intro l
  induction l with
  | nil => intro e0 e _; simp [retryGo]
  | cons p rest ih =>
    intro e0 e h
    obtain ⟨i, hd⟩ := p
    cases hA : attemptStrategy cfg env url i hd with
    | success r2 => simp [retryGo, hA] at h
    | soft e2 =>
      simp only [retryGo, hA] at h ⊢
      exact ih (some e2) e h
    | hard e2 => simp [retryGo, hA]

/-- If the first `m` strategies all soft-fail, the whole loop behaves as the
loop over the remaining strategies (for some propagated `lastError`), with
`0, ..., m-1` prepended to the attempt log. -/
theorem downloadWithRetry_reach (cfg : DlConfig) (env : NetEnv) (url : String) (fs : FS) :
    ∀ m, m ≤ (getStrategiesForUrl url).length →
      (∀ j, j < m → isSoft (attemptStrategy cfg env url j (strategyHeaders url j)) = true) →
      ∃ e0, downloadWithRetry cfg env url fs =
        ⟨(retryGo cfg env url fs (withIdx m ((getStrategiesForUrl url).drop m)) e0).res,
         (retryGo cfg env url fs (withIdx m ((getStrategiesForUrl url).drop m)) e0).fs,
         List.range m ++ (retryGo cfg env url fs (withIdx m ((getStrategiesForUrl url).drop m)) e0).attempts⟩ := by
  intro m
  induction m with
  | zero =>
    intro _ _
    exact ⟨none, by simp [downloadWithRetry]⟩
  | succ m ih =>
    intro hm hsoft
    obtain ⟨e0, he⟩ := ih (by omega) (fun j hj => hsoft j (by omega))
    have hmlt : m < (getStrategiesForUrl url).length := by omega
    have hdrop := getD_drop_cons (getStrategiesForUrl url) m ([] : Headers) hmlt
    rw [hdrop] at he
    have hs := hsoft m (by omega)
    simp only [strategyHeaders] at hs
    cases hA : attemptStrategy cfg env url m ((getStrategiesForUrl url).getD m []) with
    | success r => rw [hA] at hs; simp [isSoft] at hs
    | hard e => rw [hA] at hs; simp [isSoft] at hs
    | soft e =>
      refine ⟨some e, ?_⟩
      rw [he]
      simp only [withIdx, retryGo, hA]
      simp [List.range_succ, List.append_assoc]

/-- If every strategy in the remaining list soft-fails, the loop throws the
soft error of the last attempted strategy and logs every index. -/
theorem retryGo_allSoft (cfg : DlConfig) (env : NetEnv) (url : String) (fs : FS) :
    ∀ (l : List (Nat × Headers)) (e0 : Option JsError), l ≠ [] →
      (∀ p, p ∈ l → isSoft (attemptStrategy cfg env url p.1 p.2) = true) →
      retryGo cfg env url fs l e0 =
        ⟨.error (softErr (attemptStrategy cfg env url
            (lastD l (0, [])).1 (lastD l (0, [])).2)),
         fs, l.map Prod.fst⟩ := by
  intro l
  induction l with
  | nil => intro e0 h _; exact absurd rfl h
  | cons p rest ih =>
    intro e0 _ hsoft
    obtain ⟨i, hd⟩ := p
    have hp := hsoft (i, hd) (by simp)
    cases hA : attemptStrategy cfg env url i hd with
    | success r => rw [hA] at hp; simp [isSoft] at hp
    | hard e => rw [hA] at hp; simp [isSoft] at hp
    | soft e =>
      cases rest with
      | nil => simp [retryGo, hA, lastD, softErr]
      | cons q t =>
        have hrec := ih (some e) (by simp) (fun p2 hp2 => hsoft p2 (by simp [hp2]))
        have hstep : retryGo cfg env url fs ((i, hd) :: q :: t) e0 =
            ⟨(retryGo cfg env url fs (q :: t) (some e)).res,
             (retryGo cfg env url fs (q :: t) (some e)).fs,
             i :: (retryGo cfg env url fs (q :: t) (some e)).attempts⟩ := by
          simp only [retryGo, hA]
        rw [hstep, hrec]
        simp [lastD]

theorem getStrategiesForUrl_ne_nil (url : String) : getStrategiesForUrl url ≠ [] := by
  unfold getStrategiesForUrl
  by_cases h1 : (strContainsSub url "fbcdn.net" || strContainsSub url "facebook.com") = true
  · simp [h1]
  · by_cases h2 : (strContainsSub url "cdninstagram.com" || strContainsSub url "instagram.com") = true
    · simp [h1, h2]
    · simp [h1, h2]

theorem withIdx_ne_nil {α : Type} (l : List α) (n : Nat) (h : l ≠ []) : withIdx n l ≠ [] := by
  cases l with
  | nil => exact absurd rfl h
  | cons a t => simp [withIdx]

theorem downloadMedia_of_dwr_ok (cfg : DlConfig) (env : NetEnv) (url : String) (fs : FS)
    (r : DownloadResult) (fs2 : FS) (att : List Nat)
    (h : downloadWithRetry cfg env url fs = ⟨.ok r, fs2, att⟩) :
    downloadMedia cfg env url fs = ⟨.ok r, fs2, att⟩ := by
  simp [downloadMedia, h]

theorem downloadMedia_of_dwr_err (cfg : DlConfig) (env : NetEnv) (url : String) (fs : FS)
    (e : JsError) (fs2 : FS) (att : List Nat)
    (h : downloadWithRetry cfg env url fs = ⟨.error e, fs2, att⟩) :
    downloadMedia cfg env url fs = ⟨.error (translateError e), fs2, att⟩ := by
  simp [downloadMedia, h]

theorem downloadMedia_fs_ok (cfg : DlConfig) (env : NetEnv) (url : String) (fs : FS)
    (r : DownloadResult) (h : (downloadMedia cfg env url fs).res = .ok r) :
    (downloadMedia cfg env url fs).fs = fsWrite fs r.filepath r.fileData := by
  cases hres : (downloadWithRetry cfg env url fs).res with
  | ok r2 =>
    have hdwr : downloadWithRetry cfg env url fs
        = ⟨.ok r2, (downloadWithRetry cfg env url fs).fs,
           (downloadWithRetry cfg env url fs).attempts⟩ := by rw [← hres]
    have hdm := downloadMedia_of_dwr_ok cfg env url fs r2 _ _ hdwr
    rw [hdm] at h ⊢
    obtain rfl : r2 = r := by simpa using h
    unfold downloadWithRetry at hres
    exact retryGo_fs_ok cfg env url fs _ none r2 hres
  | error e =>
    have hdwr : downloadWithRetry cfg env url fs
        = ⟨.error e, (downloadWithRetry cfg env url fs).fs,
           (downloadWithRetry cfg env url fs).attempts⟩ := by rw [← hres]
    have hdm := downloadMedia_of_dwr_err cfg env url fs e _ _ hdwr
    rw [hdm] at h
    simp at h

theorem downloadMedia_fs_err (cfg : DlConfig) (env : NetEnv) (url : String) (fs : FS)
    (e : JsError) (h : (downloadMedia cfg env url fs).res = .error e) :
    (downloadMedia cfg env url fs).fs = fs := by
  cases hres : (downloadWithRetry cfg env url fs).res with
  | ok r2 =>
    have hdwr : downloadWithRetry cfg env url fs
        = ⟨.ok r2, (downloadWithRetry cfg env url fs).fs,
           (downloadWithRetry cfg env url fs).attempts⟩ := by rw [← hres]
    have hdm := downloadMedia_of_dwr_ok cfg env url fs r2 _ _ hdwr
    rw [hdm] at h
    simp at h
  | error e2 =>
    have hdwr : downloadWithRetry cfg env url fs
        = ⟨.error e2, (downloadWithRetry cfg env url fs).fs,
           (downloadWithRetry cfg env url fs).attempts⟩ := by rw [← hres]
    have hdm := downloadMedia_of_dwr_err cfg env url fs e2 _ _ hdwr
    rw [hdm] at h ⊢
    unfold downloadWithRetry at hres
    exact retryGo_fs_err cfg env url fs _ none e2 hres

/-! ### Claim theorems -/

/-- Claim C1: for every URL request where the store's point lookup yields a
record with a populated AnalysisResult, the image recognition callback
returns exactly the stored result text (no error flag), leaves the file
system and the store untouched, and makes no GET attempt (`attempts = []`,
i.e. no network fetch).  The statement is universally quantified over the
prompt, model name and `saveToDb` flag carried by `args`, so the cache hit
is keyed purely on the URL: the same stored text is returned for every
prompt and model supplied. -/
theorem cache_hit_returns_stored_result
    (cfg : DlConfig) (env : ToolEnv) (args : Args) (fs : FS) (db : List MediaDoc)
    (u : String) (doc : MediaDoc) (a : AnalysisDoc)
    (hurl : args.url = some u)
    (hfind : findByUrl u db = some doc)
    (hana : doc.analysis = some a) :
    imageTool cfg env args fs db = ⟨⟨a.result, false⟩, fs, db, []⟩ := by
  have hca : cachedAnalysis u db = some a := by
    simp [cachedAnalysis, hfind, hana]
  simp [imageTool, imageBody, hurl, hca]

/-- Witness for C1: a cached URL returns the stored text even though the
request carries a fresh prompt and model, the store write flag is on, and
the network is dead. -/
theorem cache_hit_returns_stored_result_witness :
    imageTool cfgT envPlain
      ⟨none, some urlT, some "a brand new prompt", some "gemini-2.5-pro", true⟩ [] dbCached
      = ⟨⟨"cached text", false⟩, [], dbCached, []⟩ :=
  cache_hit_returns_stored_result cfgT envPlain
    ⟨none, some urlT, some "a brand new prompt", some "gemini-2.5-pro", true⟩ [] dbCached
    urlT
    ⟨"https://example.com/a/pic.png", "pic.png", "image/png", [7], 1,
      some ⟨"old prompt", "cached text", "gemini-2.0"⟩⟩
    ⟨"old prompt", "cached text", "gemini-2.0"⟩
    rfl (by decide) rfl

/-- Claim C2: (1) an axios error whose response status is 403, 401 or 429
is classified as a soft failure, so the loop moves to the next strategy;
(2) in the retry loop, when strategies `0..k` all fail softly and strategy
`k+1` succeeds, the loop returns strategy `k+1`'s result (writing its temp
file), and the GET attempts are exactly the strategies `0..k+1` — nothing
after `k+1` is attempted. -/
theorem soft_failure_falls_back_to_next_strategy
    (cfg : DlConfig) (env : NetEnv) (url : String) (fs : FS) :
    (∀ i hd s st, axiosGet cfg.maxFileSize (env.wire i hd) = .httpErr s st →
        (s = 403 ∨ s = 401 ∨ s = 429) →
        attemptStrategy cfg env url i hd = .soft (.axiosHttp s st)) ∧
    (∀ k r,
      k + 1 < (getStrategiesForUrl url).length →
      (∀ j, j < k + 1 → isSoft (attemptStrategy cfg env url j (strategyHeaders url j)) = true) →
      attemptStrategy cfg env url (k + 1) (strategyHeaders url (k + 1)) = .success r →
      downloadWithRetry cfg env url fs =
        ⟨.ok r, fsWrite fs r.filepath r.fileData, List.range (k + 2)⟩) := by
  constructor
  · intro i hd s st hax hs
    simp [attemptStrategy, hax, hs]
  · intro k r hk hsoft hsucc
    obtain ⟨e0, he⟩ := downloadWithRetry_reach cfg env url fs (k + 1) (by omega) hsoft
    have hdrop := getD_drop_cons (getStrategiesForUrl url) (k + 1) ([] : Headers) hk
    rw [hdrop] at he
    simp only [strategyHeaders] at hsucc
    rw [he]
    simp only [withIdx, retryGo, hsucc]
    simp [List.range_succ, List.append_assoc]

/-- Witness for C2: strategy 0 is rejected with 403 (classified soft),
strategy 1 delivers an image/png payload; the result is strategy 1's and
only strategies 0 and 1 are attempted (of the three default strategies). -/
theorem soft_failure_falls_back_to_next_strategy_witness :
    attemptStrategy cfgT netFallback urlT 0 (strategyHeaders urlT 0) =
      .soft (.axiosHttp 403 "Forbidden") ∧
    downloadWithRetry cfgT netFallback urlT [] =
      ⟨.ok rImg, fsWrite [] rImg.filepath rImg.fileData, List.range 2⟩ := by
  constructor
  · exact (soft_failure_falls_back_to_next_strategy cfgT netFallback urlT []).1
      0 (strategyHeaders urlT 0) 403 "Forbidden" (by decide) (by decide)
  · exact (soft_failure_falls_back_to_next_strategy cfgT netFallback urlT []).2
      0 rImg (by decide) (by decide) (by decide)

/-- Claim C4: `isSupported` is exactly membership of the
parameter-stripped, trimmed, lowercased MIME type in the fixed allow-list;
every allow-list entry is an `image/*` or `video/*` type; consequently
`isSupported` is false for every MIME type whose normalised form is
`audio/*`. -/
theorem isSupported_allowlist_no_audio :
    (∀ m, isSupported m = true ↔ normalizeMime m ∈ supportedMimeTypes) ∧
    (∀ t, t ∈ supportedMimeTypes → strStarts t "image/" = true ∨ strStarts t "video/" = true) ∧
    (∀ m, strStarts (normalizeMime m) "audio/" = true → isSupported m = false) := by
  have hiff : ∀ m, isSupported m = true ↔ normalizeMime m ∈ supportedMimeTypes := by
    intro m
    by_cases hm : m = ""
    · subst hm
      simp [isSupported]
      decide
    · simp only [isSupported, hm, if_false]
      exact List.elem_iff
  refine ⟨hiff, ?_, ?_⟩
  · intro t ht
    simp only [supportedMimeTypes, List.mem_cons, List.not_mem_nil, or_false] at ht
    rcases ht with rfl | rfl | rfl | rfl | rfl | rfl | rfl | rfl | rfl | rfl | rfl | rfl <;> decide
  · intro m h
    cases hx : isSupported m with
    | false => rfl
    | true =>
      exfalso
      have hmem := (hiff m).mp hx
      simp only [supportedMimeTypes, List.mem_cons, List.not_mem_nil, or_false] at hmem
      rcases hmem with he | he | he | he | he | he | he | he | he | he | he | he <;>
        (rw [he] at h; exact absurd h (by decide))

/-- Witness for C4: `audio/mpeg` is rejected while `image/png` is accepted. -/
theorem isSupported_allowlist_no_audio_witness :
    isSupported "audio/mpeg" = false ∧ isSupported "image/png" = true := by
  constructor
  · exact isSupported_allowlist_no_audio.2.2 "audio/mpeg" (by decide)
  · exact (isSupported_allowlist_no_audio.1 "image/png").mpr (by decide)

/-- Claim C3: (1) an axios error whose status is outside {401, 403, 429} is
classified hard; (2) a response-less axios failure (timeout, oversize
abort, malformed response) is classified hard; (3) once the loop reaches a
strategy whose attempt is hard, it throws that error at once — the
attempt log stops at that strategy, so no later strategy is tried; (4) when
every strategy soft-fails, the loop terminates by throwing the last
strategy's soft error, having attempted every strategy exactly once. -/
theorem hard_failure_short_circuits
    (cfg : DlConfig) (env : NetEnv) (url : String) (fs : FS) :
    (∀ i hd s st, axiosGet cfg.maxFileSize (env.wire i hd) = .httpErr s st →
        ¬(s = 403 ∨ s = 401 ∨ s = 429) →
        attemptStrategy cfg env url i hd = .hard (.axiosHttp s st)) ∧
    (∀ i hd c m, axiosGet cfg.maxFileSize (env.wire i hd) = .netErr c m →
        attemptStrategy cfg env url i hd = .hard (.axiosNet c m)) ∧
    (∀ k e, (∀ j, j < k → isSoft (attemptStrategy cfg env url j (strategyHeaders url j)) = true) →
        k < (getStrategiesForUrl url).length →
        attemptStrategy cfg env url k (strategyHeaders url k) = .hard e →
        downloadWithRetry cfg env url fs = ⟨.error e, fs, List.range (k + 1)⟩) ∧
    ((∀ j, j < (getStrategiesForUrl url).length →
        isSoft (attemptStrategy cfg env url j (strategyHeaders url j)) = true) →
      downloadWithRetry cfg env url fs =
        ⟨.error (softErr (attemptStrategy cfg env url
            ((getStrategiesForUrl url).length - 1)
            (strategyHeaders url ((getStrategiesForUrl url).length - 1)))),
         fs, List.range (getStrategiesForUrl url).length⟩) := by
  refine ⟨?_, ?_, ?_, ?_⟩
  · intro i hd s st hax hns
    simp [attemptStrategy, hax, hns]
  · intro i hd c m hax
    simp [attemptStrategy, hax]
  · intro k e hsoft hk hhard
    obtain ⟨e0, he⟩ := downloadWithRetry_reach cfg env url fs k (by omega) hsoft
    have hdrop := getD_drop_cons (getStrategiesForUrl url) k ([] : Headers) hk
    rw [hdrop] at he
    simp only [strategyHeaders] at hhard
    rw [he]
    simp only [withIdx, retryGo, hhard]
    simp [List.range_succ, List.append_assoc]
  · intro hall
    have hne := getStrategiesForUrl_ne_nil url
    have hlen : 0 < (getStrategiesForUrl url).length := List.length_pos.mpr hne
    have hmem : ∀ p, p ∈ withIdx 0 (getStrategiesForUrl url) →
        isSoft (attemptStrategy cfg env url p.1 p.2) = true := by
      intro p hp
      obtain ⟨j, hj, h1, h2⟩ := mem_withIdx ([] : Headers) (getStrategiesForUrl url) 0 p hp
      have := hall j hj
      simp only [strategyHeaders] at this
      rw [h1, h2]
      simpa using this
    have hrun := retryGo_allSoft cfg env url fs (withIdx 0 (getStrategiesForUrl url)) none
      (withIdx_ne_nil _ 0 hne) hmem
    have hlast := lastD_withIdx ([] : Headers) (getStrategiesForUrl url) 0 hne
    unfold downloadWithRetry
    rw [hrun, hlast]
    simp only [Nat.zero_add, map_fst_withIdx, idxFrom_zero]
    rfl

/-- Witness for C3: against a server that always answers 500, only strategy
0 is attempted and the call fails with the 500 error; against a server that
rate-limits every strategy (429), all three default strategies are
attempted and the reported error is the last strategy's. -/
theorem hard_failure_short_circuits_witness :
    downloadWithRetry cfgT netServerErr urlT [] =
      ⟨.error (.axiosHttp 500 "Internal Server Error"), [], List.range 1⟩ ∧
    downloadWithRetry cfgT netRateLimited urlT [] =
      ⟨.error (.axiosHttp 429 "Too Many Requests 2"), [], List.range 3⟩ := by
  constructor
  · exact (hard_failure_short_circuits cfgT netServerErr urlT []).2.2.1 0
      (.axiosHttp 500 "Internal Server Error")
      (by intro j hj; omega) (by decide) (by decide)
  · have h := (hard_failure_short_circuits cfgT netRateLimited urlT []).2.2.2 (by decide)
    rw [h]
    rfl

/-- Claim C7: when strategy 0's reply is a 200 whose body would exceed the
configured ceiling, the transfer is aborted mid-stream — the bytes buffered
at the abort are at most the ceiling, strictly fewer than the full payload —
no file is written, and the error surfaced by `downloadMedia` names the
configured limit; the constructor default for that limit is 100MB. -/
theorem size_ceiling_aborts_transfer
    (cfg : DlConfig) (env : NetEnv) (url : String) (fs : FS)
    (st : String) (ct : Option String) (chunks : List Bytes)
    (hw : env.wire 0 (strategyHeaders url 0) = .reply 200 st ct chunks)
    (hover : cfg.maxFileSize < (chunks.map List.length).sum) :
    (∃ b, recvBody cfg.maxFileSize chunks [] = .error b ∧
        b.length ≤ cfg.maxFileSize ∧ b.length < (chunks.map List.length).sum) ∧
    downloadMedia cfg env url fs =
      ⟨.error (.plain ("Network error: maxContentLength size of "
          ++ toString cfg.maxFileSize ++ " exceeded")), fs, [0]⟩ ∧
    defaultMaxFileSize = 104857600 := by
  obtain ⟨b, hb, hble⟩ := recvBody_abort cfg.maxFileSize chunks [] (by simp) (by simpa using hover)
  obtain ⟨s0, rest, hl⟩ : ∃ a l, getStrategiesForUrl url = a :: l := by
    cases h : getStrategiesForUrl url with
    | nil => exact absurd h (getStrategiesForUrl_ne_nil url)
    | cons a l => exact ⟨a, l, rfl⟩
  have hs0 : strategyHeaders url 0 = s0 := by
    rw [strategyHeaders, hl]; rfl
  rw [hs0] at hw
  have hax : axiosGet cfg.maxFileSize (env.wire 0 s0) =
      .netErr "ERR_BAD_RESPONSE"
        ("maxContentLength size of " ++ toString cfg.maxFileSize ++ " exceeded") := by
    rw [hw]
    simp only [axiosGet]
    rw [if_pos (by omega), hb]
  have hatt : attemptStrategy cfg env url 0 s0 =
      .hard (.axiosNet "ERR_BAD_RESPONSE"
        ("maxContentLength size of " ++ toString cfg.maxFileSize ++ " exceeded")) := by
    simp [attemptStrategy, hax]
  have hdwr : downloadWithRetry cfg env url fs =
      ⟨.error (.axiosNet "ERR_BAD_RESPONSE"
          ("maxContentLength size of " ++ toString cfg.maxFileSize ++ " exceeded")), fs, [0]⟩ := by
    unfold downloadWithRetry
    rw [hl]
    simp only [withIdx, retryGo, hatt]
  refine ⟨⟨b, hb, hble, lt_of_le_of_lt hble hover⟩, ?_, by decide⟩
  have hdm := downloadMedia_of_dwr_err cfg env url fs _ _ _ hdwr
  rw [hdm]
  simp only [translateError]
  rw [if_neg (by decide)]
  simp only [← String.append_assoc]
  rfl

/-- Witness for C7: a 10-byte ceiling against a 12-byte payload (two
6-byte chunks): the abort happens after the first chunk (6 bytes buffered,
fewer than the 12-byte payload) and the surfaced error names the limit. -/
theorem size_ceiling_aborts_transfer_witness :
    downloadMedia cfgSmall netBig urlV [] =
      ⟨.error (.plain "Network error: maxContentLength size of 10 exceeded"), [], [0]⟩ ∧
    recvBody 10 [[1, 2, 3, 4, 5, 6], [7, 8, 9, 10, 11, 12]] [] = .error [1, 2, 3, 4, 5, 6] := by
  have h := size_ceiling_aborts_transfer cfgSmall netBig urlV [] "OK" (some "video/mp4")
    [[1, 2, 3, 4, 5, 6], [7, 8, 9, 10, 11, 12]] (by decide) (by decide)
  exact ⟨h.2.1, by decide⟩

/-- Claim C10: when neither the HEAD probe nor the GET response carries a
content-type header, the allow-list check is skipped and the download
succeeds with resolved MIME type `application/octet-stream` — a type the
allow-list itself rejects — and the only rejection then possible is the
image tool's class-prefix check, which fails the request naming that MIME
type while leaving the store untouched. -/
theorem missing_content_type_skips_allowlist
    (cfg : DlConfig) (env : ToolEnv) (args : Args) (fs : FS) (db : List MediaDoc)
    (u st : String) (chunks : List Bytes)
    (hurl : args.url = some u)
    (hca : cachedAnalysis u db = none)
    (hhead : env.net.head 0 (strategyHeaders u 0) = none)
    (hw : env.net.wire 0 (strategyHeaders u 0) = .reply 200 st none chunks)
    (hsize : (chunks.map List.length).sum ≤ cfg.maxFileSize) :
    (downloadMedia cfg env.net u fs).res =
      .ok ⟨cfg.tempDir ++ "/" ++ generateFilename cfg u "application/octet-stream",
           generateFilename cfg u "application/octet-stream",
           "application/octet-stream", chunks.flatten, chunks.flatten.length⟩ ∧
    isSupported "application/octet-stream" = false ∧
    (imageTool cfg env args fs db).result =
      ⟨"Error processing image: URL does not point to an image file. MIME type: application/octet-stream",
       true⟩ ∧
    (imageTool cfg env args fs db).db = db := by
  obtain ⟨s0, rest, hl⟩ : ∃ a l, getStrategiesForUrl u = a :: l := by
    cases h : getStrategiesForUrl u with
    | nil => exact absurd h (getStrategiesForUrl_ne_nil u)
    | cons a l => exact ⟨a, l, rfl⟩
  have hs0 : strategyHeaders u 0 = s0 := by
    rw [strategyHeaders, hl]; rfl
  rw [hs0] at hw hhead
  have hax : axiosGet cfg.maxFileSize (env.net.wire 0 s0) = .ok none chunks.flatten := by
    rw [hw]
    simp only [axiosGet]
    rw [if_pos (by omega), recvBody_complete cfg.maxFileSize chunks [] (by simpa using hsize)]
    rfl
  have hflat : ¬ cfg.maxFileSize < chunks.flatten.length := by
    rw [List.length_flatten]
    omega
  have hatt : attemptStrategy cfg env.net u 0 s0 =
      .success ⟨cfg.tempDir ++ "/" ++ generateFilename cfg u "application/octet-stream",
        generateFilename cfg u "application/octet-stream",
        "application/octet-stream", chunks.flatten, chunks.flatten.length⟩ := by
    simp only [attemptStrategy, hax, hhead]
    rw [if_neg hflat]
    rfl
  have hdwr : downloadWithRetry cfg env.net u fs =
      ⟨.ok ⟨cfg.tempDir ++ "/" ++ generateFilename cfg u "application/octet-stream",
          generateFilename cfg u "application/octet-stream",
          "application/octet-stream", chunks.flatten, chunks.flatten.length⟩,
       fsWrite fs (cfg.tempDir ++ "/" ++ generateFilename cfg u "application/octet-stream")
         chunks.flatten, [0]⟩ := by
    unfold downloadWithRetry
    rw [hl]
    simp only [withIdx, retryGo, hatt]
  have hdm := downloadMedia_of_dwr_ok cfg env.net u fs _ _ _ hdwr
  have hpre : strStarts "application/octet-stream" "image/" = false := by decide
  refine ⟨by rw [hdm], by decide, ?_, ?_⟩ <;>
    simp [imageTool, imageBody, hurl, hca, hdm, hpre, JsError.message]

/-- Witness for C10: a network with no content-type headers at all; the
download resolves to application/octet-stream and the image tool rejects it
via the class-prefix check. -/
theorem missing_content_type_skips_allowlist_witness :
    (downloadMedia cfgT netNoCT urlT []).res =
      .ok ⟨"/tmp/mcp-video-recognition/pic.png", "pic.png",
           "application/octet-stream", [1, 2, 3], 3⟩ ∧
    (imageTool cfgT envNoCT ⟨none, some urlT, none, none, true⟩ [] []).result =
      ⟨"Error processing image: URL does not point to an image file. MIME type: application/octet-stream",
       true⟩ := by
  have h := missing_content_type_skips_allowlist cfgT envNoCT
    ⟨none, some urlT, none, none, true⟩ [] [] urlT "OK" [[1, 2, 3]]
    rfl rfl rfl rfl (by decide)
  refine ⟨?_, h.2.2.1⟩
  have h1 := h.1
  show (downloadMedia cfgT envNoCT.net urlT []).res = _
  rw [h1]
  rfl

/-- Claim C6: when the analysis succeeds but the store write throws
(`saveOk = false`), both the image and the video tool still return the
successful analysis text with no error flag, and the store is unchanged —
the persistence failure is swallowed. -/
theorem persistence_failure_isolated :
    (∀ (cfg : DlConfig) (env : ToolEnv) (args : Args) (fs : FS) (db : List MediaDoc)
        (u : String) (r : DownloadResult) (t : String),
      env.saveOk = false →
      args.url = some u →
      cachedAnalysis u db = none →
      env.upload = .ok () →
      env.process = .ok ⟨t, false⟩ →
      (downloadMedia cfg env.net u fs).res = .ok r →
      strStarts r.mimeType "image/" = true →
      (imageTool cfg env args fs db).result = ⟨t, false⟩ ∧
        (imageTool cfg env args fs db).db = db) ∧
    (∀ (cfg : DlConfig) (env : ToolEnv) (args : Args) (fs : FS) (db : List MediaDoc)
        (u : String) (r : DownloadResult) (t : String),
      env.saveOk = false →
      args.saveToDb = true →
      args.url = some u →
      cachedAnalysis u db = none →
      env.upload = .ok () →
      env.process = .ok ⟨t, false⟩ →
      (downloadMedia cfg env.net u fs).res = .ok r →
      strStarts r.mimeType "video/" = true →
      (videoTool cfg env args fs db).result = ⟨t, false⟩ ∧
        (videoTool cfg env args fs db).db = db) := by
  constructor
  · intro cfg env args fs db u r t hsave hurl hca hup hproc hdl hmime
    constructor <;>
      simp [imageTool, imageBody, imageAnalyze, saveMedia, hurl, hca, hdl, hmime,
        hup, hproc, hsave]
  · intro cfg env args fs db u r t hsave hflag hurl hca hup hproc hdl hmime
    constructor <;>
      simp [videoTool, videoBody, videoAnalyze, saveMedia, hurl, hca, hdl, hmime,
        hup, hproc, hsave, hflag]

/-- Witness for C6: image and video URL requests against environments whose
store write fails: the analysis text comes back clean and the store stays
empty. -/
theorem persistence_failure_isolated_witness :
    ((imageTool cfgT envImgSaveFail ⟨none, some urlT, none, none, true⟩ [] []).result =
        ⟨"analyzed text", false⟩ ∧
      (imageTool cfgT envImgSaveFail ⟨none, some urlT, none, none, true⟩ [] []).db = []) ∧
    ((videoTool cfgT envVidSaveFail ⟨none, some urlV, none, none, true⟩ [] []).result =
        ⟨"analyzed text", false⟩ ∧
      (videoTool cfgT envVidSaveFail ⟨none, some urlV, none, none, true⟩ [] []).db = []) := by
  constructor
  · exact persistence_failure_isolated.1 cfgT envImgSaveFail
      ⟨none, some urlT, none, none, true⟩ [] [] urlT rImg "analyzed text"
      rfl rfl rfl rfl rfl (by decide) (by decide)
  · exact persistence_failure_isolated.2 cfgT envVidSaveFail
      ⟨none, some urlV, none, none, true⟩ [] [] urlV rVid "analyzed text"
      rfl rfl rfl rfl rfl rfl (by decide) (by decide)

/-- Claim C8 is violated by the image tool (a code bug): on a successful
local-file image request with `saveToDb = false` the image tool still
performs a store insert — its callback never consults the flag before
calling `saveMedia` — while the video tool with the same flag leaves the
store unchanged.  The store gains a document despite `saveToDb = false`. -/
theorem image_tool_ignores_saveToDb_flag :
    argsLocalImgNoSave.saveToDb = false ∧
    argsLocalVidNoSave.saveToDb = false ∧
    (imageTool cfgT envLocalImg argsLocalImgNoSave [] []).result = ⟨"desc", false⟩ ∧
    (imageTool cfgT envLocalImg argsLocalImgNoSave [] []).db =
      [⟨"/tmp/pic.png", "pic.png", "image/png", [1, 2, 3], 3,
        some ⟨"Describe this image", "desc", "gemini-2.5-flash"⟩⟩] ∧
    (videoTool cfgT envLocalVid argsLocalVidNoSave [] []).result = ⟨"desc", false⟩ ∧
    (videoTool cfgT envLocalVid argsLocalVidNoSave [] []).db = [] := by
  decide

/-- The `try` body of the image tool either marks no temp file and leaves
the scratch directory untouched, or marks exactly the freshly written
download temp file. -/
theorem imageBody_temp_fs (cfg : DlConfig) (env : ToolEnv) (args : Args) (fs : FS)
    (db : List MediaDoc) :
    ((imageBody cfg env args fs db).temp = none ∧ (imageBody cfg env args fs db).fs = fs) ∨
    (∃ r : DownloadResult, (imageBody cfg env args fs db).temp = some r.filepath ∧
      (imageBody cfg env args fs db).fs = fsWrite fs r.filepath r.fileData) := by
  cases hu : args.url with
  | none =>
    cases hfp : args.filepath with
    | none => left; simp [imageBody, hu, hfp]
    | some fp =>
      cases hlf : fsLookup env.localFiles fp with
      | none => left; simp [imageBody, hu, hfp, hlf]
      | some data =>
        left
        simp only [imageBody, hu, hfp, hlf]
        split <;> simp
  | some u =>
    cases hca : cachedAnalysis u db with
    | some a => left; simp [imageBody, hu, hca]
    | none =>
      cases hres : (downloadMedia cfg env.net u fs).res with
      | error e =>
        left
        simp only [imageBody, hu, hca, hres]
        exact ⟨by simp, downloadMedia_fs_err cfg env.net u fs e hres⟩
      | ok r =>
        right
        refine ⟨r, ?_, ?_⟩ <;>
        · simp only [imageBody, hu, hca, hres]
          split <;> simp [downloadMedia_fs_ok cfg env.net u fs r hres]

/-- Claim C5: (1) with a functioning OS delete, the scratch directory holds
no path after the image tool returns that it did not already hold before
the call — on every exit path, any temp file written for the request is
gone; (2) `cleanupTempFile` on an absent path is a no-op; (3) when the
OS-level delete fails, `cleanupTempFile` swallows the error and returns
normally with the state unchanged (it never throws — it is a total
function into `FS` because the source wraps the delete in try/catch). -/
theorem temp_file_released_on_all_paths
    (cfg : DlConfig) (env : ToolEnv) (args : Args) (fs : FS) (db : List MediaDoc) :
    (env.unlinkOk = true →
      ∀ p, fsHas (imageTool cfg env args fs db).fs p = true → fsHas fs p = true) ∧
    (∀ p ok, fsHas fs p = false → cleanupTempFile fs p ok = fs) ∧
    (∀ p, cleanupTempFile fs p false = fs) := by
  refine ⟨?_, ?_, ?_⟩
  · intro hok p hp
    rcases imageBody_temp_fs cfg env args fs db with ⟨ht, hf⟩ | ⟨r, ht, hf⟩
    · have hfs : (imageTool cfg env args fs db).fs = (imageBody cfg env args fs db).fs := by
        simp [imageTool, ht]
      rw [hfs, hf] at hp
      exact hp
    · have hfs : (imageTool cfg env args fs db).fs =
          cleanupTempFile (fsWrite fs r.filepath r.fileData) r.filepath true := by
        simp [imageTool, ht, hf, hok]
      rw [hfs] at hp
      rw [cleanupTempFile, if_pos (fsHas_fsWrite_self fs r.filepath r.fileData)] at hp
      simp only [unlinkSync, if_pos] at hp
      rw [fsErase_fsWrite] at hp
      exact fsHas_of_fsHas_fsErase fs r.filepath p hp
  · intro p ok hno
    simp [cleanupTempFile, hno]
  · intro p
    by_cases h : fsHas fs p = true
    · simp [cleanupTempFile, h, unlinkSync]
    · simp [cleanupTempFile, h]

/-- Witness for C5: a successful URL image request writes its temp file
during the call, yet after the call the scratch directory (initially
empty) does not contain it. -/
theorem temp_file_released_on_all_paths_witness :
    fsHas (imageTool cfgT envImgOk ⟨none, some urlT, none, none, true⟩ [] []).fs
      "/tmp/mcp-video-recognition/pic.png" = false := by
  have h := (temp_file_released_on_all_paths cfgT envImgOk
    ⟨none, some urlT, none, none, true⟩ [] []).1 rfl "/tmp/mcp-video-recognition/pic.png"
  cases hx : fsHas (imageTool cfgT envImgOk ⟨none, some urlT, none, none, true⟩ [] []).fs
      "/tmp/mcp-video-recognition/pic.png" with
  | false => rfl
  | true => exact absurd (h hx) (by decide)

/-- Claim C9: filename derivation is deterministic given the URL and the
resolved MIME type.  For a parseable URL: when the path basename carries a
dot it is returned verbatim; otherwise (with resolved MIME `image/png`) the
filename is `media_` + the first 8 characters of the URL digest + `.png`,
independent of the per-call random suffix — and when the digest function
yields 8 or more hex characters, those 8 characters are 8 hex characters.
Same URL and digest function imply the same filename across calls. -/
theorem filename_derivation_deterministic
    (cfg cfg2 : DlConfig) (url mt pn : String)
    (hparse : parseUrlPathname url = some pn)
    (hhash : cfg2.md5hex = cfg.md5hex) :
    ((pathBasename pn ≠ "" ∧ strContainsChar (pathBasename pn) '.' = true) →
      generateFilename cfg url mt = pathBasename pn) ∧
    (¬(pathBasename pn ≠ "" ∧ strContainsChar (pathBasename pn) '.' = true) →
      generateFilename cfg2 url mt = generateFilename cfg url mt ∧
      (mt = "image/png" →
        generateFilename cfg url mt = "media_" ++ strTake (cfg.md5hex url) 8 ++ ".png") ∧
      (8 ≤ (cfg.md5hex url).toList.length →
        (strTake (cfg.md5hex url) 8).toList.length = 8) ∧
      ((∀ c ∈ (cfg.md5hex url).toList, isHexChar c = true) →
        ∀ c ∈ (strTake (cfg.md5hex url) 8).toList, isHexChar c = true)) := by
  constructor
  · intro h
    simp only [generateFilename, hparse]
    rw [if_pos h]
  · intro h
    refine ⟨?_, ?_, ?_, ?_⟩
    · simp only [generateFilename, hparse]
      rw [if_neg h, if_neg h, hhash]
    · intro hmt
      subst hmt
      simp only [generateFilename, hparse]
      rw [if_neg h]
      have hx : (mimeExtension "image/png").getD "bin" = "png" := by decide
      rw [hx, String.append_assoc]
      rfl
    · intro hlen
      show (List.take 8 (cfg.md5hex url).toList).length = 8
      rw [List.length_take]
      omega
    · intro hall c hc
      apply hall
      have hsub : (strTake (cfg.md5hex url) 8).toList = (cfg.md5hex url).toList.take 8 := rfl
      rw [hsub] at hc
      exact List.take_subset _ _ hc

/-- Witness for C9: `https://example.com/videos/clip.mp4` yields
`clip.mp4`; `https://example.com/image` with MIME `image/png` yields
`media_01234567.png` under the fixture digest, and the same filename under
a different random suffix. -/
theorem filename_derivation_deterministic_witness :
    generateFilename cfgT "https://example.com/videos/clip.mp4" "video/mp4" = "clip.mp4" ∧
    generateFilename cfgT "https://example.com/image" "image/png" = "media_01234567.png" ∧
    generateFilename cfgT2 "https://example.com/image" "image/png" =
      generateFilename cfgT "https://example.com/image" "image/png" := by
  refine ⟨?_, ?_, ?_⟩
  · exact (filename_derivation_deterministic cfgT cfgT "https://example.com/videos/clip.mp4"
      "video/mp4" "/videos/clip.mp4" rfl rfl).1 (by decide)
  · have h := ((filename_derivation_deterministic cfgT cfgT "https://example.com/image"
      "image/png" "/image" rfl rfl).2 (by decide)).2.1 rfl
    rw [h]
    rfl
  · exact ((filename_derivation_deterministic cfgT cfgT2 "https://example.com/image"
      "image/png" "/image" rfl rfl).2 (by decide)).1

end MCP
